import Mathlib

/-!
# ssh.camp terminal UI: the list picker and the root controller

A shallow embedding of `internal/tui/components/picker/picker.go` and of
`internal/tui/tui.go`, followed by theorems about them.

Conventions of the embedding.

* A Go `string` is its byte sequence (`GoString`); `len` is `List.length` and
  `s[:k]` is a checked `List.take`.
* A Go `int` is an `Int`. Every index the code computes is bounded by the
  length of a slice, so no statement below concerns wrap-around.
* A Go slice is a `List`, with capacity equal to length.
* Code that can panic (slice or index out of range, nil dereference) returns
  `Option`, and `none` is the panic.
* `lipgloss` calls are kept as data: `Style.Render` produces a `Rendered`
  block, `JoinHorizontal` a `Line` of blocks, `JoinVertical` a list of lines.
  `lipgloss.Width` and `lipgloss.Height` are computed on that data.
-/

/-- A Go string: a sequence of bytes. -/
abbrev GoString := List UInt8

/-- The UTF-8 bytes of a string literal, for writing Go string constants. -/
def go (s : String) : GoString := s.toList.flatMap String.utf8EncodeChar

/-- The Go slice expression `xs[lo:hi]`, which panics unless
`0 <= lo <= hi <= cap(xs)`; the capacity is taken equal to the length. -/
def goSlice {α : Type} (xs : List α) (lo hi : Int) : Option (List α) :=
  if 0 ≤ lo ∧ lo ≤ hi ∧ hi ≤ (xs.length : Int) then
    some ((xs.drop lo.toNat).take (hi.toNat - lo.toNat))
  else none

/-- The Go index expression `xs[i]`, which panics unless `0 <= i < len(xs)`. -/
def goIndex {α : Type} (xs : List α) (i : Int) : Option α :=
  if 0 ≤ i then xs.get? i.toNat else none

/-! ## lipgloss, as far as the picker uses it -/

namespace lipgloss

/-- The attributes of a `lipgloss.Style` that the picker's styles set. -/
structure Style where
  paddingLeft : Int := 0
  paddingRight : Int := 0
  height : Int := 0
  foreground : Option String := none
  bold : Bool := false
deriving DecidableEq, Repr

/-- `lipgloss.NewStyle()`. -/
def NewStyle : Style := {}

/-- `Style.PaddingRight(i)`: lipgloss stores `max(0, i)`. -/
def Style.PaddingRight (s : Style) (i : Int) : Style := { s with paddingRight := max 0 i }

/-- The result of `Style.Render(text)`: the text together with its style. -/
structure Rendered where
  style : Style
  text : GoString
deriving DecidableEq, Repr

/-- `Style.Render(text)`. -/
def Style.Render (s : Style) (text : GoString) : Rendered := ⟨s, text⟩

/-- A bare Go string used as a block; rendering with the empty style leaves
the text as it is. -/
def plain (text : GoString) : Rendered := ⟨NewStyle, text⟩

/-- The lines of a text, split at `\n`. -/
def splitLines : GoString → List GoString
  | [] => [[]]
  | b :: rest =>
    if b = 10 then [] :: splitLines rest
    else
      match splitLines rest with
      | [] => [[b]]
      | l :: ls => (b :: l) :: ls

/-- The cells one line of text occupies: its code points, that is the bytes
that are not UTF-8 continuation bytes. Exact for printable ASCII and for the
ellipsis, which is one cell wide. -/
def cells (line : GoString) : Int :=
  ((line.filter (fun b => !(decide (128 ≤ b.toNat) && decide (b.toNat < 192)))).length : Int)

/-- The width of a text: that of its widest line. -/
def textWidth (text : GoString) : Int :=
  ((splitLines text).map cells).foldl max 0

/-- `lipgloss.Width` of a rendered block. -/
def Rendered.Width (r : Rendered) : Int :=
  r.style.paddingLeft + textWidth r.text + r.style.paddingRight

/-- `lipgloss.Height` of a rendered block: its number of lines, at least the
height the style sets. -/
def Rendered.Height (r : Rendered) : Int :=
  max r.style.height ((splitLines r.text).length : Int)

/-- The result of `lipgloss.JoinHorizontal`: blocks side by side. -/
abbrev Line := List Rendered

/-- `lipgloss.Width` of a horizontal join: the blocks' widths add up. -/
def Line.Width (l : Line) : Int := (l.map Rendered.Width).sum

end lipgloss

/-! ## bubbles/key -/

namespace key

/-- A `key.Binding`: the keys it reacts to and whether it is disabled. -/
structure Binding where
  keys : List String
  disabled : Bool := false
deriving DecidableEq, Repr

/-- `key.NewBinding(key.WithKeys(keys...))`. -/
def NewBinding (keys : List String) : Binding := { keys := keys }

/-- `Binding.Enabled`. -/
def Binding.Enabled (b : Binding) : Bool := !b.disabled && !b.keys.isEmpty

/-- `key.Matches(msg, b)`, on the `String()` of the key message. -/
def Matches (k : String) (b : Binding) : Bool :=
  b.keys.any (fun v => decide (k = v) && b.Enabled)

end key

/-! ## Domain records and messages -/

namespace picker

/-- Represents an item in the picker list. -/
structure Item where
  Label : GoString
  Value : Int
  Badge : GoString
deriving DecidableEq, Repr

end picker

namespace models

/-- The fields of `models.Mail` that the controller reads. -/
structure Mail where
  ID : Int
  MailboxID : Int
  Seen : Bool
deriving DecidableEq, Repr

end models

namespace home

/-- A `home.MailboxWithUnread`: a `models.Mailbox` with its unread count. -/
structure MailboxWithUnread where
  ID : Int
  Name : GoString
  AccountID : Int
  Unread : Int
deriving DecidableEq, Repr

end home

/-- The messages (`tea.Msg`) the picker and the controller distinguish. A
`tea.KeyMsg` is represented by its `String()`; a pointer to a mailbox is an
`Option`, `none` being nil. `refreshMailboxesCmd` is the function value
`m.refreshMailboxes(passive)` when it is returned as a message, as
`createRandomMailbox` does. -/
inductive Msg where
  | WindowSizeMsg (Width Height : Int)
  | KeyMsg (str : String)
  | mailboxRealTimeUpdate (mailbox : Int)
  | MailboxesRefreshedMsg (Passive : Bool) (Mailboxes : List home.MailboxWithUnread)
      (Err : Option String)
  | MailboxSelectedMsg (Mailbox : Option home.MailboxWithUnread)
  | CreateRandomMailboxMsg
  | DeleteMailboxMsg (Mailbox : Option home.MailboxWithUnread)
  | MailSelectedMsg (Mail : models.Mail)
  | MailDismissMsg
  | SelectedMsg (Item : picker.Item)
  | MailsRefreshedMsg (Mailbox : Option home.MailboxWithUnread) (Mails : List models.Mail)
      (Err : Option String)
  | refreshMailboxesCmd (account : Int) (passive : Bool)
  | QuitMsg
  | other (tag : Nat)
deriving DecidableEq, Repr

/-! ## The picker -/

namespace picker

open lipgloss

structure Styles where
  Title : Style
  Badge : Style
  Regular : Style
  SelectedLabel : Style
  SelectedLegend : Style
  Highlighted : Style
deriving DecidableEq, Repr

def DefaultStyles : Styles where
  Title := { paddingLeft := 2, height := 2, foreground := some "244" }
  Badge := { foreground := some "244" }
  Regular := NewStyle
  SelectedLabel := { foreground := some "212", bold := true }
  SelectedLegend := { foreground := some "212", bold := true }
  Highlighted := { foreground := some "212" }

structure KeyMap where
  GoToTop : key.Binding
  GoToLast : key.Binding
  Up : key.Binding
  Down : key.Binding
  Select : key.Binding
deriving DecidableEq, Repr

def DefaultKeyMap : KeyMap where
  GoToTop := key.NewBinding ["g"]
  GoToLast := key.NewBinding ["G"]
  Up := key.NewBinding ["k", "up", "ctrl+p"]
  Down := key.NewBinding ["j", "down", "ctrl+n"]
  Select := key.NewBinding ["enter"]

/-- A picker is a component that can be used to show a list of values and
have the user pick from them. -/
structure Model where
  title : GoString
  items : List Item
  selected : Int
  highlighted : Int
  focused : Bool
  Width : Int
  Height : Int
  Styles : Styles
  KeyMap : KeyMap
deriving DecidableEq, Repr

def NewModel (title : GoString) (items : List Item) (width height : Int) : Model where
  title := title
  items := items
  focused := false
  selected := 0
  highlighted := 0
  Width := width
  Height := height
  Styles := DefaultStyles
  KeyMap := DefaultKeyMap

def Model.Focus (m : Model) : Model := { m with focused := true }

def Model.Blur (m : Model) : Model := { m with focused := false }

def Model.IsFocused (m : Model) : Bool := m.focused

def Model.SetItems (m : Model) (items : List Item) : Model :=
  { m with items := items, selected := 0, highlighted := 0 }

def Model.HasItems (m : Model) : Bool := decide (m.items.length > 0)

/-- The method `Selected`, run: `SelectedMsg{Item: m.items[m.selected]}`. -/
def Model.Selected (m : Model) : Option Msg :=
  (goIndex m.items m.selected).map Msg.SelectedMsg

def Model.clampedIndex (m : Model) (index : Int) : Int :=
  if index < 0 then 0
  else if index ≥ (m.items.length : Int) then (m.items.length : Int) - 1
  else index

/-- The commands (`tea.Cmd`) the picker returns: the method value
`m.Selected`, bound to the model it was taken from. -/
inductive Cmd where
  | Selected (m : Model)
deriving DecidableEq, Repr

/-- Running a command gives its message. -/
def Cmd.run : Cmd → Option Msg
  | .Selected m => m.Selected

def Model.Init (_m : Model) : Option Cmd := none

def Model.Update (m : Model) (msg : Msg) : Model × Option Cmd :=
  match msg with
  | .KeyMsg k =>
    if m.IsFocused && m.HasItems then
      if key.Matches k m.KeyMap.GoToTop then
        ({ m with highlighted := 0 }, none)
      else if key.Matches k m.KeyMap.GoToLast then
        ({ m with highlighted := (m.items.length : Int) - 1 }, none)
      else if key.Matches k m.KeyMap.Up then
        ({ m with highlighted := m.clampedIndex (m.highlighted - 1) }, none)
      else if key.Matches k m.KeyMap.Down then
        ({ m with highlighted := m.clampedIndex (m.highlighted + 1) }, none)
      else if key.Matches k m.KeyMap.Select then
        let m := { m with selected := m.highlighted }
        (m, some (Cmd.Selected m))
      else (m, none)
    else (m, none)
  | _ => (m, none)

/-- The ellipsis the picker appends to a trimmed label: U+2026, three bytes. -/
def ellipsis : GoString := [226, 128, 166]

/-- The rows left for items: `Height` minus the height of the rendered title,
when there is a title. -/
def Model.contentHeight (m : Model) : Int :=
  if m.title ≠ [] then m.Height - (m.Styles.Title.Render m.title).Height else m.Height

/-- The items `View` renders: the slice chosen by "Keep the highlighted line
visible". -/
def Model.visibleItems (m : Model) (height : Int) : Option (List Item) :=
  if m.highlighted > height - 1 then
    goSlice m.items (m.highlighted - height + 1) (m.highlighted + 1)
  else if (m.items.length : Int) > height then
    goSlice m.items 0 height
  else some m.items

/-- The label of a row: "If the text overflows, trim it, add ellipsis." -/
def Model.trimLabel (m : Model) (item : Item) : Option GoString :=
  let label := item.Label
  let total : Int := (label.length : Int) + (item.Badge.length : Int) + 2
  if total > m.Width then
    (goSlice label 0 ((label.length : Int) - (total - m.Width + 3))).map (· ++ ellipsis)
  else some label

/-- The body of the loop of `View` for the row at position `index` of the
visible items. -/
def Model.renderRow (m : Model) (index : Int) (item : Item) : Option Line := do
  let legend :=
    if index = m.selected then m.Styles.SelectedLegend.Render (go "┃") else plain (go " ")
  let label ← m.trimLabel item
  let label :=
    if index = m.highlighted then
      if m.IsFocused then m.Styles.Highlighted.Render label
      else if index = m.selected then m.Styles.SelectedLabel.Render label
      else m.Styles.Regular.Render label
    else if index = m.selected then m.Styles.SelectedLabel.Render label
    else m.Styles.Regular.Render label
  let line : Line := [legend, NewStyle.Render (go " "), label]
  if item.Badge.length ≠ 0 then
    let badge := m.Styles.Badge.Render item.Badge
    let space := m.Width - Line.Width line - badge.Width
    pure (line ++ [(NewStyle.PaddingRight space).Render (go " "), badge])
  else pure line

/-- The loop of `View` over the visible items, `index` counting from `start`. -/
def Model.renderRows (m : Model) : Int → List Item → Option (List Line)
  | _, [] => some []
  | index, item :: rest => do
    let line ← m.renderRow index item
    let lines ← m.renderRows (index + 1) rest
    pure (line :: lines)

/-- The method `View`: the lines it joins vertically, or `none` when it
panics. -/
def Model.View (m : Model) : Option (List Line) := do
  let lines : List Line := if m.title ≠ [] then [[m.Styles.Title.Render m.title]] else []
  let height := m.contentHeight
  let items ← m.visibleItems height
  let rows ← m.renderRows 0 items
  pure (lines ++ rows)

end picker

/-! ## The screens, as far as the controller sees them -/

namespace home

/-- The fields of `home.Model` that the controller reads and writes; `rest`
stands for the state of the screen that the controller never touches. A nil
`SelectedMailbox` is `none`. -/
structure Model (H : Type) where
  SelectedMailbox : Option MailboxWithUnread
  Width : Int
  Height : Int
  rest : H

end home

namespace email

/-- The fields of `email.Model` that the controller writes; `rest` stands for
the state of the screen that the controller never touches. -/
structure Model (E : Type) where
  Width : Int
  Height : Int
  rest : E

end email

/-! ## The root controller -/

namespace tui

inductive mode where
  | Home
  | Email
deriving DecidableEq, Repr

structure KeyMap where
  Quit : key.Binding
deriving DecidableEq, Repr

def DefaultKeyMap : KeyMap where
  Quit := key.NewBinding ["ctrl+c", "q"]

/-- Represents the top most model. The database handle, the colours and the
renderer, which `Update` never changes, are left out; `account` is the id of
the account. -/
structure Model (H E : Type) where
  account : Int
  mode : mode
  home : home.Model H
  email : email.Model E
  width : Int
  height : Int
  KeyMap : KeyMap
  quitting : Bool

/-- One background operation the controller hands to the runtime, with what
its closure captured; `screen c` is a command `c` returned by a screen. -/
inductive Op (C : Type) where
  | refreshMailboxes (account : Int) (passive : Bool)
  | refreshMails (mailbox : Option home.MailboxWithUnread)
  | listenToMailboxUpdate (account : Int)
  | createRandomMailbox (account : Int)
  | deleteMailbox (mailbox : Option home.MailboxWithUnread)
  | markMailSeen (selected : Option home.MailboxWithUnread) (mail : models.Mail)
  | Quit
  | screen (c : C)
deriving DecidableEq, Repr

/-- A `tea.Cmd`, as the list of operations the runtime starts for it: none
for a nil command, one for a single function, several for a batch. -/
abbrev Cmd (C : Type) := List (Op C)

/-- `tea.Batch(cmds...)`: the commands that are not nil, together. -/
def Batch {C : Type} (cmds : List (Option (Op C))) : Cmd C := cmds.reduceOption

/-- A command returned by a screen, possibly nil. -/
def ofScreen {C : Type} (cmd : Option C) : Cmd C := (cmd.map Op.screen).toList

/-- The `Update` methods of the two screens, whose code the controller only
calls. -/
structure Screens (H E C : Type) where
  homeUpdate : home.Model H → Msg → home.Model H × Option C
  emailUpdate : email.Model E → Msg → email.Model E × Option C

variable {H E C : Type}

def Model.refreshMailboxes (m : Model H E) (passive : Bool) : Op C :=
  Op.refreshMailboxes m.account passive

def Model.refreshMails (_m : Model H E) (mailbox : Option home.MailboxWithUnread) : Op C :=
  Op.refreshMails mailbox

def Model.listenToMailboxUpdate (m : Model H E) : Op C :=
  Op.listenToMailboxUpdate m.account

def Model.createRandomMailbox (m : Model H E) : Op C :=
  Op.createRandomMailbox m.account

def Model.deleteMailbox (_m : Model H E) (mailbox : Option home.MailboxWithUnread) : Op C :=
  Op.deleteMailbox mailbox

def Model.markMailSeen (m : Model H E) (mail : models.Mail) : Op C :=
  Op.markMailSeen m.home.SelectedMailbox mail

/-- The end of `Update`, after the type switch: the message goes to the
screen of the current mode. -/
def Model.forward (S : Screens H E C) (m : Model H E) (msg : Msg) :
    Option (Model H E × Cmd C) :=
  match m.mode with
  | .Home =>
    let r := S.homeUpdate m.home msg
    some ({ m with home := r.1 }, ofScreen r.2)
  | .Email =>
    let r := S.emailUpdate m.email msg
    some ({ m with email := r.1 }, ofScreen r.2)

/-- The method `Update` of the controller; `none` is a panic. -/
def Model.Update (S : Screens H E C) (m : Model H E) (msg : Msg) :
    Option (Model H E × Cmd C) :=
  match msg with
  | .WindowSizeMsg Width Height =>
    let m := { m with width := Width, height := Height }
    let m := { m with home := { m.home with Width := m.width - 12, Height := m.height - 5 } }
    let m := { m with email := { m.email with Width := m.home.Width, Height := m.home.Height } }
    let m := { m with home := (S.homeUpdate m.home msg).1 }
    let m := { m with email := (S.emailUpdate m.email msg).1 }
    some (m, [])
  | .KeyMsg k =>
    if key.Matches k m.KeyMap.Quit then
      some ({ m with quitting := true }, [Op.Quit])
    else m.forward S msg
  | .mailboxRealTimeUpdate mailbox =>
    match m.home.SelectedMailbox with
    | none => none
    | some selected =>
      if mailbox = selected.ID then
        some (m, Batch [
          some (m.refreshMails m.home.SelectedMailbox),
          some m.listenToMailboxUpdate,
          some (m.refreshMailboxes true)])
      else
        some (m, Batch [
          some m.listenToMailboxUpdate,
          some (m.refreshMailboxes true)])
  | .MailboxesRefreshedMsg _ _ _ =>
    let r := S.homeUpdate m.home msg
    some ({ m with home := r.1 }, ofScreen r.2)
  | .MailboxSelectedMsg Mailbox =>
    some (m, [m.refreshMails Mailbox])
  | .CreateRandomMailboxMsg =>
    some (m, [m.createRandomMailbox])
  | .DeleteMailboxMsg Mailbox =>
    some (m, [m.deleteMailbox Mailbox])
  | .MailSelectedMsg Mail =>
    let m := { m with mode := mode.Email }
    let r := S.emailUpdate m.email msg
    let m := { m with email := r.1 }
    some (m, Batch [r.2.map Op.screen, some (m.markMailSeen Mail)])
  | .MailDismissMsg =>
    some ({ m with mode := mode.Home }, [])
  | _ => m.forward S msg

/-! ### Running the commands

A closure the controller schedules has captured a copy of `m`. The copy
shares with the controller one thing the closures touch: the record that
`m.home.SelectedMailbox` points at. Running a command is therefore given that
record as it is when the command runs (`cell`, `none` for a nil pointer) and
gives it back as the command leaves it. The store and the signal are not part
of the program, so what they answer during the run is given (`Replies`). -/

/-- What the store and the mailbox signal answer while one command runs. An
error (`error`) is `none` when nil. -/
structure Replies where
  mailboxes : List home.MailboxWithUnread
  mailboxesErr : Option String
  mails : List models.Mail
  mailsErr : Option String
  waitValue : Int
  waitAborted : Bool
  createErr : Option String
  deleteMailboxErr : Option String
  deleteMailsErr : Option String
  updateErr : Option String
deriving DecidableEq, Repr

/-- What running a command leaves behind: the shared record, the message
returned, and the lines written with `fmt.Println`. -/
structure Ran where
  cell : Option home.MailboxWithUnread
  msg : Option Msg
  printed : List String
deriving DecidableEq, Repr

/-- The closure `refreshMailboxes(passive)` returns, run. -/
def refreshMailboxesRun (passive : Bool) (w : Replies)
    (cell : Option home.MailboxWithUnread) : Ran :=
  ⟨cell, some (Msg.MailboxesRefreshedMsg passive w.mailboxes w.mailboxesErr), []⟩

/-- The closure `refreshMails(mailbox)` returns, run; it reads `mailbox.ID`. -/
def refreshMailsRun (mailbox : Option home.MailboxWithUnread) (w : Replies)
    (cell : Option home.MailboxWithUnread) : Option Ran :=
  match mailbox with
  | none => none
  | some _ => some ⟨cell, some (Msg.MailsRefreshedMsg mailbox w.mails w.mailsErr), []⟩

/-- The method `listenToMailboxUpdate`, run. -/
def listenToMailboxUpdateRun (w : Replies) (cell : Option home.MailboxWithUnread) : Ran :=
  if !w.waitAborted then ⟨cell, some (Msg.mailboxRealTimeUpdate w.waitValue), []⟩
  else ⟨cell, none, []⟩

/-- The method `createRandomMailbox`, run. -/
def createRandomMailboxRun (account : Int) (w : Replies)
    (cell : Option home.MailboxWithUnread) : Ran :=
  match w.createErr with
  | some err => ⟨cell, none, [err]⟩
  | none => ⟨cell, some (Msg.refreshMailboxesCmd account false), []⟩

/-- The closure `deleteMailbox(mailbox)` returns, run; it reads `mailbox.ID`. -/
def deleteMailboxRun (mailbox : Option home.MailboxWithUnread) (w : Replies)
    (cell : Option home.MailboxWithUnread) : Option Ran :=
  match mailbox with
  | none => none
  | some _ =>
    if w.deleteMailboxErr ≠ none then some ⟨cell, none, []⟩
    else if w.deleteMailsErr ≠ none then some ⟨cell, none, []⟩
    else some (refreshMailboxesRun false w cell)

/-- The closure `markMailSeen(mail)` returns, run. `mail` is the closure's own
copy of the message; `mail.Seen = true` is written to that copy. -/
def markMailSeenRun (mail : models.Mail) (w : Replies)
    (cell : Option home.MailboxWithUnread) : Ran :=
  if !mail.Seen then
    let printed := match w.updateErr with
      | some err => [err]
      | none => []
    match cell with
    | some selected =>
      if mail.MailboxID = selected.ID then
        ⟨some { selected with Unread := selected.Unread - 1 }, none, printed⟩
      else ⟨cell, none, printed⟩
    | none => ⟨cell, none, printed⟩
  else ⟨cell, none, []⟩

/-- Running one scheduled operation; `none` is a panic. The commands of the
screens are run by `runScreen`. -/
def Op.run (runScreen : C → Replies → Option home.MailboxWithUnread → Option Ran)
    (w : Replies) (cell : Option home.MailboxWithUnread) : Op C → Option Ran
  | .refreshMailboxes _ passive => some (refreshMailboxesRun passive w cell)
  | .refreshMails mailbox => refreshMailsRun mailbox w cell
  | .listenToMailboxUpdate _ => some (listenToMailboxUpdateRun w cell)
  | .createRandomMailbox account => some (createRandomMailboxRun account w cell)
  | .deleteMailbox mailbox => deleteMailboxRun mailbox w cell
  | .markMailSeen _ mail => some (markMailSeenRun mail w cell)
  | .Quit => some ⟨cell, some Msg.QuitMsg, []⟩
  | .screen c => runScreen c w cell

/-! ### The view of the controller -/

/-- The parts of `View` and `Help` that are not the controller's own: the
views and key bindings of the screens, `help.View`, `config.Settings.Signature`
and the lipgloss functions, on strings. -/
structure Views (H E : Type) where
  homeView : home.Model H → GoString
  emailView : email.Model E → GoString
  homeHelp : home.Model H → List key.Binding
  emailHelp : email.Model E → List key.Binding
  helpView : List key.Binding → GoString
  Signature : GoString
  Width : GoString → Int
  JoinHorizontal : List GoString → GoString
  JoinVertical : List GoString → GoString
  renderSignature : Int → GoString → GoString
  renderFrame : GoString → GoString

def Model.Help (V : Views H E) (m : Model H E) : List key.Binding :=
  let bindings :=
    match m.mode with
    | .Home => V.homeHelp m.home
    | .Email => V.emailHelp m.email
  bindings ++ [m.KeyMap.Quit]

/-- The method `View`. `renderSignature gap` is the style with
`PaddingLeft(gap)` applied to the signature, `renderFrame` the style with
`Padding(2, 6)`. -/
def Model.View (V : Views H E) (m : Model H E) : GoString :=
  if m.quitting then []
  else
    let content :=
      match m.mode with
      | .Home => V.homeView m.home
      | .Email => V.emailView m.email
    let bottom := V.helpView (m.Help V)
    let gap := m.width - V.Width bottom - V.Width V.Signature - 12
    let bottom :=
      if gap > 8 then V.JoinHorizontal [bottom, V.renderSignature gap V.Signature]
      else bottom
    V.renderFrame (V.JoinVertical [content, bottom])

end tui

/-! ## Vocabulary of the statements, and sample states -/

namespace picker

open lipgloss

/-- A sequence of `Update` calls, the commands dropped. -/
def Model.updates (m : Model) (msgs : List Msg) : Model :=
  msgs.foldl (fun m msg => (m.Update msg).1) m

/-- The five things a key can make the picker do. -/
inductive Action where
  | top
  | bottom
  | up
  | down
  | select
deriving DecidableEq, Repr

/-- The action of a key under a key map: the first case of the switch in
`Update` whose binding the key matches, in the order of the source. -/
def KeyMap.action (km : KeyMap) (k : String) : Option Action :=
  if key.Matches k km.GoToTop then some Action.top
  else if key.Matches k km.GoToLast then some Action.bottom
  else if key.Matches k km.Up then some Action.up
  else if key.Matches k km.Down then some Action.down
  else if key.Matches k km.Select then some Action.select
  else none

/-- Three items to try the picker on. -/
def sampleItems : List Item :=
  [⟨go "inbox", 1, go "3"⟩, ⟨go "work", 2, go ""⟩, ⟨go "spam", 3, go "12"⟩]

/-- Both indices of the picker point into its item list. -/
def Model.InRange (m : Model) : Prop :=
  (0 ≤ m.highlighted ∧ m.highlighted < (m.items.length : Int)) ∧
  (0 ≤ m.selected ∧ m.selected < (m.items.length : Int))

/-- The lines `View` puts before the rows: the rendered title, if any. -/
def Model.titleLines (m : Model) : List Line :=
  if m.title ≠ [] then [[m.Styles.Title.Render m.title]] else []

/-- The label block of a rendered row: the third block, after the legend and
the separator. -/
def labelOf (row : Line) : Option Rendered := row[2]?

/-- The badge block of a rendered row: the fifth block, after the padding. -/
def badgeOf (row : Line) : Option Rendered := row[4]?

/-- The label style by the precedence of the specification: highlighted and
focused, then selected, then plain. -/
def Model.labelStyleByPrecedence (m : Model) (index : Int) : Style :=
  if index = m.highlighted ∧ m.focused = true then m.Styles.Highlighted
  else if index = m.selected then m.Styles.SelectedLabel
  else m.Styles.Regular

/-- The label text the specification describes for an item: cut to
`Width - len(badge) - 5` bytes and the ellipsis when the row overflows, whole
otherwise. -/
def Model.labelBySpec (m : Model) (item : Item) : GoString :=
  if (item.Label.length : Int) + (item.Badge.length : Int) + 2 > m.Width then
    item.Label.take (m.Width - (item.Badge.length : Int) - 5).toNat ++ ellipsis
  else item.Label

/-- An item fits the width: its row does not overflow, or there is room for
the badge, the ellipsis and the chrome. -/
def Model.Fits (m : Model) (item : Item) : Prop :=
  (item.Label.length : Int) + (item.Badge.length : Int) + 2 ≤ m.Width ∨
    (item.Badge.length : Int) + 5 ≤ m.Width

instance (m : Model) (item : Item) : Decidable (m.Fits item) := by
  unfold Model.Fits
  exact inferInstance

/-- A titled picker of height 4, so with two rows for items, whose third item
is highlighted. -/
def scrolledTitled : Model :=
  { NewModel (go "Mailboxes") sampleItems 40 4 with highlighted := 2 }

/-- A short first item, then a long label with a badge and a long label
without one. -/
def longItems : List Item :=
  [⟨go "inbox", 1, go "3"⟩, ⟨go "notifications@example.com", 2, go "3"⟩,
    ⟨go "notifications@example.com", 3, go ""⟩]

end picker

namespace tui

variable {H E C : Type}

/-- The messages the type switch of `Update` handles itself: every case that
returns, the quit key among the key messages. -/
def recognised (km : KeyMap) : Msg → Bool
  | .WindowSizeMsg _ _ => true
  | .KeyMsg k => key.Matches k km.Quit
  | .mailboxRealTimeUpdate _ => true
  | .MailboxesRefreshedMsg _ _ _ => true
  | .MailboxSelectedMsg _ => true
  | .CreateRandomMailboxMsg => true
  | .DeleteMailboxMsg _ => true
  | .MailSelectedMsg _ => true
  | .MailDismissMsg => true
  | _ => false

/-- The mode the transition table of the specification gives after an event. -/
def nextMode (current : mode) : Msg → mode
  | .MailSelectedMsg _ => mode.Email
  | .MailDismissMsg => mode.Home
  | _ => current

/-- The controller takes a message and the runtime runs the commands it
scheduled, one after the other, each on the shared record as the one before
left it; the result is the controller state with the record as it is then.
The messages the commands return are dropped. -/
def Model.deliver (S : Screens H E C)
    (runScreen : C → Replies → Option home.MailboxWithUnread → Option Ran)
    (w : Replies) (m : Model H E) (msg : Msg) : Option (Model H E) := do
  let r ← m.Update S msg
  let cell ← r.2.foldlM (fun cell op => (op.run runScreen w cell).map Ran.cell)
    r.1.home.SelectedMailbox
  pure { r.1 with home := { r.1.home with SelectedMailbox := cell } }

/-- The unread counter of the selected mailbox of a controller state. -/
def Model.unread (m : Model H E) : Option Int := m.home.SelectedMailbox.map (·.Unread)

/-- A store that answers without error, and a signal that is not aborted. -/
def quietReplies : Replies where
  mailboxes := []
  mailboxesErr := none
  mails := []
  mailsErr := none
  waitValue := 7
  waitAborted := false
  createErr := none
  deleteMailboxErr := none
  deleteMailsErr := none
  updateErr := none

/-- A store whose update fails. -/
def failingReplies : Replies := { quietReplies with updateErr := some "database is locked" }

/-- An unseen message of mailbox 7. -/
def unseenMail : models.Mail := ⟨42, 7, false⟩

/-- The commands of the idle screens: there are none to run. -/
def idleRun : Unit → Replies → Option home.MailboxWithUnread → Option Ran :=
  fun _ _ cell => some ⟨cell, none, []⟩

/-- Views that render every screen as one letter. -/
def idleViews : Views Unit Unit where
  homeView := fun _ => go "H"
  emailView := fun _ => go "E"
  homeHelp := fun _ => []
  emailHelp := fun _ => []
  helpView := fun _ => go "?"
  Signature := go "ssh.camp"
  Width := fun t => (t.length : Int)
  JoinHorizontal := fun parts => parts.flatten
  JoinVertical := fun parts => parts.flatten
  renderSignature := fun _ t => t
  renderFrame := fun t => t

/-- Screens that count the messages they get in `rest` and answer each with a
command of their own, named after the screen. -/
def countingScreens : Screens Nat Nat String where
  homeUpdate := fun h _ => ({ h with rest := h.rest + 1 }, some "home")
  emailUpdate := fun e _ => ({ e with rest := e.rest + 1 }, some "email")

/-- A controller over the counting screens, on the Home screen. -/
def countingModel : Model Nat Nat where
  account := 1
  mode := mode.Home
  home := { SelectedMailbox := some ⟨7, go "inbox", 1, 3⟩, Width := 68, Height := 19, rest := 0 }
  email := { Width := 68, Height := 19, rest := 0 }
  width := 80
  height := 24
  KeyMap := DefaultKeyMap
  quitting := false

/-- Running a command of the counting screens: it touches nothing and returns
no message. -/
def countingRun : String → Replies → Option home.MailboxWithUnread → Option Ran :=
  fun _ _ cell => some ⟨cell, none, []⟩

/-- Screens that ignore every message, to try the controller on. -/
def idleScreens : Screens Unit Unit Unit where
  homeUpdate := fun h _ => (h, none)
  emailUpdate := fun e _ => (e, none)

/-- A controller on the Home screen with mailbox 7 selected. -/
def sampleModel : Model Unit Unit where
  account := 1
  mode := mode.Home
  home := { SelectedMailbox := some ⟨7, go "inbox", 1, 3⟩, Width := 68, Height := 19, rest := () }
  email := { Width := 68, Height := 19, rest := () }
  width := 80
  height := 24
  KeyMap := DefaultKeyMap
  quitting := false

end tui

/-! ## Theorems: navigation in the picker -/

namespace picker

open lipgloss

theorem clampedIndex_range (m : Model) (index : Int) (hne : m.items ≠ []) :
    0 ≤ m.clampedIndex index ∧ m.clampedIndex index < (m.items.length : Int) := by
  have hpos : 0 < m.items.length := List.length_pos.mpr hne
  unfold Model.clampedIndex
  split_ifs <;> omega

theorem update_items (m : Model) (msg : Msg) : (m.Update msg).1.items = m.items := by
  unfold Model.Update
  split
  · split_ifs <;> rfl
  · rfl

theorem update_inRange (m : Model) (msg : Msg) (hne : m.items ≠ []) (h : m.InRange) :
    (m.Update msg).1.InRange := by
  have hpos : 0 < m.items.length := List.length_pos.mpr hne
  have hup := clampedIndex_range m (m.highlighted - 1) hne
  have hdown := clampedIndex_range m (m.highlighted + 1) hne
  obtain ⟨⟨h1, h2⟩, h3, h4⟩ := h
  unfold Model.Update
  split
  · split_ifs
    · exact ⟨⟨le_refl _, by simpa using hpos⟩, h3, h4⟩
    · exact ⟨⟨by simp only; omega, by simp only; omega⟩, h3, h4⟩
    · exact ⟨hup, h3, h4⟩
    · exact ⟨hdown, h3, h4⟩
    · exact ⟨⟨h1, h2⟩, h1, h2⟩
    · exact ⟨⟨h1, h2⟩, h3, h4⟩
    · exact ⟨⟨h1, h2⟩, h3, h4⟩
  · exact ⟨⟨h1, h2⟩, h3, h4⟩

theorem updates_items (msgs : List Msg) (m : Model) : (m.updates msgs).items = m.items := by
  induction msgs generalizing m with
  | nil => rfl
  | cons msg rest ih =>
    show ((m.Update msg).1.updates rest).items = m.items
    rw [ih, update_items]

theorem updates_inRange (msgs : List Msg) (m : Model) (hne : m.items ≠ [])
    (h : m.InRange) : (m.updates msgs).InRange := by
  induction msgs generalizing m with
  | nil => exact h
  | cons msg rest ih =>
    show ((m.Update msg).1.updates rest).InRange
    exact ih _ (by rw [update_items]; exact hne) (update_inRange m msg hne h)

/-- C1. Starting from a picker built by `NewModel` on a non-empty list
(focused afterwards or not) or by `SetItems` on any picker, after any finite
sequence of `Update` calls, whatever the messages (in particular the up, down,
top, bottom and select keys), the item list is still the same and both
`0 <= highlighted < len(items)` and `0 <= selected < len(items)` hold. -/
theorem indices_in_range_after_updates (title : GoString) (items : List Item)
    (width height : Int) (m0 start : Model) (msgs : List Msg) (hne : items ≠ [])
    (hstart : start = NewModel title items width height ∨
      start = (NewModel title items width height).Focus ∨
      start = m0.SetItems items) :
    (start.updates msgs).items = items ∧
    (0 ≤ (start.updates msgs).highlighted ∧
      (start.updates msgs).highlighted < (items.length : Int)) ∧
    (0 ≤ (start.updates msgs).selected ∧
      (start.updates msgs).selected < (items.length : Int)) := by
  have hpos : (0 : Int) < (items.length : Int) := by
    exact_mod_cast List.length_pos.mpr hne
  have hitems : start.items = items := by
    rcases hstart with h | h | h <;> rw [h] <;> rfl
  have hrange : start.InRange := by
    rcases hstart with h | h | h <;> rw [h] <;> exact ⟨⟨le_refl _, hpos⟩, le_refl _, hpos⟩
  have hkeep := updates_items msgs start
  have hfinal := updates_inRange msgs start (by rw [hitems]; exact hne) hrange
  unfold Model.InRange at hfinal
  rw [hkeep, hitems] at hfinal
  exact ⟨by rw [hkeep, hitems], hfinal⟩

theorem indices_in_range_after_updates_witness :
    ((((NewModel (go "Mailboxes") sampleItems 40 10).Focus).updates
        [Msg.KeyMsg "G", Msg.KeyMsg "down", Msg.KeyMsg "enter", Msg.KeyMsg "k"]).highlighted
        = 1) ∧
    ((((NewModel (go "Mailboxes") sampleItems 40 10).Focus).updates
        [Msg.KeyMsg "G", Msg.KeyMsg "down", Msg.KeyMsg "enter", Msg.KeyMsg "k"]).items
        = sampleItems ∧
      (0 ≤ (((NewModel (go "Mailboxes") sampleItems 40 10).Focus).updates
        [Msg.KeyMsg "G", Msg.KeyMsg "down", Msg.KeyMsg "enter", Msg.KeyMsg "k"]).highlighted ∧
       (((NewModel (go "Mailboxes") sampleItems 40 10).Focus).updates
        [Msg.KeyMsg "G", Msg.KeyMsg "down", Msg.KeyMsg "enter", Msg.KeyMsg "k"]).highlighted
        < (sampleItems.length : Int)) ∧
      (0 ≤ (((NewModel (go "Mailboxes") sampleItems 40 10).Focus).updates
        [Msg.KeyMsg "G", Msg.KeyMsg "down", Msg.KeyMsg "enter", Msg.KeyMsg "k"]).selected ∧
       (((NewModel (go "Mailboxes") sampleItems 40 10).Focus).updates
        [Msg.KeyMsg "G", Msg.KeyMsg "down", Msg.KeyMsg "enter", Msg.KeyMsg "k"]).selected
        < (sampleItems.length : Int))) :=
  ⟨by decide,
   indices_in_range_after_updates (go "Mailboxes") sampleItems 40 10
    (NewModel (go "Mailboxes") sampleItems 40 10)
    ((NewModel (go "Mailboxes") sampleItems 40 10).Focus)
    [Msg.KeyMsg "G", Msg.KeyMsg "down", Msg.KeyMsg "enter", Msg.KeyMsg "k"]
    (by decide) (Or.inr (Or.inl rfl))⟩

/-- C6. A picker that is unfocused, or whose item list is empty, is left
unchanged in every field by `Update`, whatever the message, and `Update`
returns no command. -/
theorem update_noop_unfocused_or_empty (m : Model) (msg : Msg)
    (h : m.focused = false ∨ m.items = []) : m.Update msg = (m, none) := by
  have hguard : (m.IsFocused && m.HasItems) = false := by
    rcases h with h | h
    · simp [Model.IsFocused, h]
    · simp [Model.HasItems, h]
  unfold Model.Update
  split
  · rw [if_neg (by rw [hguard]; exact Bool.false_ne_true)]
  · rfl

theorem update_noop_unfocused_or_empty_witness :
    ((NewModel (go "Mailboxes") sampleItems 40 10).focused = false ∨
      (NewModel (go "Mailboxes") sampleItems 40 10).items = []) ∧
    (NewModel (go "Mailboxes") sampleItems 40 10).Update (Msg.KeyMsg "G") =
      (NewModel (go "Mailboxes") sampleItems 40 10, none) :=
  ⟨Or.inl rfl, update_noop_unfocused_or_empty _ _ (Or.inl rfl)⟩

/-- C9. Whatever the state of the picker before, after `SetItems(xs)` the
items are `xs`, `highlighted` and `selected` are 0, and the focus, the title,
`Width`, `Height`, the styles and the key map are as before. -/
theorem setItems_resets_indices (m : Model) (xs : List Item) :
    (m.SetItems xs).items = xs ∧ (m.SetItems xs).highlighted = 0 ∧
    (m.SetItems xs).selected = 0 ∧ (m.SetItems xs).focused = m.focused ∧
    (m.SetItems xs).title = m.title ∧ (m.SetItems xs).Width = m.Width ∧
    (m.SetItems xs).Height = m.Height ∧ (m.SetItems xs).Styles = m.Styles ∧
    (m.SetItems xs).KeyMap = m.KeyMap :=
  ⟨rfl, rfl, rfl, rfl, rfl, rfl, rfl, rfl, rfl⟩

theorem guard_of_focused_nonempty (m : Model) (hf : m.focused = true) (hne : m.items ≠ []) :
    (m.IsFocused && m.HasItems) = true := by
  have hpos : 0 < m.items.length := List.length_pos.mpr hne
  simp [Model.IsFocused, Model.HasItems, hf, hpos]

theorem update_of_action (m : Model) (k : String) (hf : m.focused = true)
    (hne : m.items ≠ []) :
    m.Update (Msg.KeyMsg k) =
      match m.KeyMap.action k with
      | some Action.top => ({ m with highlighted := 0 }, none)
      | some Action.bottom => ({ m with highlighted := (m.items.length : Int) - 1 }, none)
      | some Action.up => ({ m with highlighted := m.clampedIndex (m.highlighted - 1) }, none)
      | some Action.down => ({ m with highlighted := m.clampedIndex (m.highlighted + 1) }, none)
      | some Action.select =>
        ({ m with selected := m.highlighted },
          some (Cmd.Selected { m with selected := m.highlighted }))
      | none => (m, none) := by
  have hg := guard_of_focused_nonempty m hf hne
  simp only [Model.Update, hg, if_true, KeyMap.action]
  split_ifs <;> rfl

/-- C7. For a focused picker with a non-empty list and
`0 <= highlighted < len(items)`, `Update` with a key whose action is select
(enter, under the default key map) returns the model with
`selected = highlighted` and every other field unchanged, together with a
command whose result is `SelectedMsg` carrying `items[highlighted]`. -/
theorem update_select_emits_highlighted_item (m : Model) (k : String)
    (hf : m.focused = true) (hne : m.items ≠ []) (h0 : 0 ≤ m.highlighted)
    (hlt : m.highlighted < (m.items.length : Int))
    (hk : m.KeyMap.action k = some Action.select) :
    ∃ item, goIndex m.items m.highlighted = some item ∧
      m.Update (Msg.KeyMsg k) =
        ({ m with selected := m.highlighted },
          some (Cmd.Selected { m with selected := m.highlighted })) ∧
      (Cmd.Selected { m with selected := m.highlighted }).run = some (Msg.SelectedMsg item) := by
  have hidx : m.highlighted.toNat < m.items.length := by omega
  refine ⟨m.items.get ⟨m.highlighted.toNat, hidx⟩, ?_, ?_, ?_⟩
  · simp [goIndex, h0, List.getElem?_eq_getElem hidx]
  · rw [update_of_action m k hf hne, hk]
  · simp [Cmd.run, Model.Selected, goIndex, h0, List.getElem?_eq_getElem hidx]

theorem update_select_emits_highlighted_item_witness :
    DefaultKeyMap.action "enter" = some Action.select ∧
    ∃ item, goIndex sampleItems 2 = some item ∧
      ({ (NewModel (go "Mailboxes") sampleItems 40 10).Focus with highlighted := 2 }).Update
          (Msg.KeyMsg "enter") =
        ({ (NewModel (go "Mailboxes") sampleItems 40 10).Focus with
            highlighted := 2, selected := 2 },
          some (Cmd.Selected { (NewModel (go "Mailboxes") sampleItems 40 10).Focus with
            highlighted := 2, selected := 2 })) ∧
      (Cmd.Selected { (NewModel (go "Mailboxes") sampleItems 40 10).Focus with
            highlighted := 2, selected := 2 }).run = some (Msg.SelectedMsg item) :=
  ⟨by decide,
   update_select_emits_highlighted_item
    ({ (NewModel (go "Mailboxes") sampleItems 40 10).Focus with highlighted := 2 }) "enter"
    rfl (by decide) (by decide) (by decide) (by decide)⟩

/-- C8. For a focused picker with `n = len(items) > 0` and
`0 <= highlighted = h < n`: a key whose action is up gives
`highlighted = max(h - 1, 0)`, down gives `min(h + 1, n - 1)`, top gives 0 and
bottom gives `n - 1`; each of the four leaves every other field (so `selected`
and `items`) unchanged and returns no command; and `Update` returns a command
exactly for the key messages whose action is select. -/
theorem update_navigation_clamps (m : Model) (hf : m.focused = true) (hne : m.items ≠ [])
    (h0 : 0 ≤ m.highlighted) (hlt : m.highlighted < (m.items.length : Int)) :
    (∀ k, m.KeyMap.action k = some Action.up →
      m.Update (Msg.KeyMsg k) = ({ m with highlighted := max (m.highlighted - 1) 0 }, none)) ∧
    (∀ k, m.KeyMap.action k = some Action.down →
      m.Update (Msg.KeyMsg k) =
        ({ m with highlighted := min (m.highlighted + 1) ((m.items.length : Int) - 1) }, none)) ∧
    (∀ k, m.KeyMap.action k = some Action.top →
      m.Update (Msg.KeyMsg k) = ({ m with highlighted := 0 }, none)) ∧
    (∀ k, m.KeyMap.action k = some Action.bottom →
      m.Update (Msg.KeyMsg k) = ({ m with highlighted := (m.items.length : Int) - 1 }, none)) ∧
    (∀ msg, (m.Update msg).2 ≠ none ↔
      ∃ k, msg = Msg.KeyMsg k ∧ m.KeyMap.action k = some Action.select) := by
  have hupv : m.clampedIndex (m.highlighted - 1) = max (m.highlighted - 1) 0 := by
    unfold Model.clampedIndex
    split_ifs <;> omega
  have hdownv : m.clampedIndex (m.highlighted + 1) =
      min (m.highlighted + 1) ((m.items.length : Int) - 1) := by
    unfold Model.clampedIndex
    split_ifs <;> omega
  refine ⟨?_, ?_, ?_, ?_, ?_⟩
  · intro k hk
    rw [update_of_action m k hf hne, hk]
    simp only [hupv]
  · intro k hk
    rw [update_of_action m k hf hne, hk]
    simp only [hdownv]
  · intro k hk
    rw [update_of_action m k hf hne, hk]
  · intro k hk
    rw [update_of_action m k hf hne, hk]
  · intro msg
    constructor
    · intro hcmd
      cases msg with
      | KeyMsg k =>
        refine ⟨k, rfl, ?_⟩
        rw [update_of_action m k hf hne] at hcmd
        cases hact : m.KeyMap.action k with
        | none => rw [hact] at hcmd; exact absurd rfl hcmd
        | some a =>
          rw [hact] at hcmd
          cases a <;> first | rfl | exact absurd rfl hcmd
      | _ => exact absurd rfl hcmd
    · rintro ⟨k, rfl, hk⟩
      rw [update_of_action m k hf hne, hk]
      simp

theorem update_navigation_clamps_witness :
    DefaultKeyMap.action "up" = some Action.up ∧
    ({ (NewModel (go "Mailboxes") sampleItems 40 10).Focus with highlighted := 2 }).Update
        (Msg.KeyMsg "up") =
      ({ (NewModel (go "Mailboxes") sampleItems 40 10).Focus with highlighted := 1 }, none) ∧
    ({ (NewModel (go "Mailboxes") sampleItems 40 10).Focus with highlighted := 2 }).Update
        (Msg.KeyMsg "down") =
      ({ (NewModel (go "Mailboxes") sampleItems 40 10).Focus with highlighted := 2 }, none) ∧
    ({ (NewModel (go "Mailboxes") sampleItems 40 10).Focus with highlighted := 2 }).Update
        (Msg.KeyMsg "g") =
      ({ (NewModel (go "Mailboxes") sampleItems 40 10).Focus with highlighted := 0 }, none) ∧
    ({ (NewModel (go "Mailboxes") sampleItems 40 10).Focus with highlighted := 2 }).Update
        (Msg.KeyMsg "G") =
      ({ (NewModel (go "Mailboxes") sampleItems 40 10).Focus with highlighted := 2 }, none) :=
  ⟨by decide,
   (update_navigation_clamps
      ({ (NewModel (go "Mailboxes") sampleItems 40 10).Focus with highlighted := 2 })
      rfl (by decide) (by decide) (by decide)).1 "up" (by decide),
   (update_navigation_clamps
      ({ (NewModel (go "Mailboxes") sampleItems 40 10).Focus with highlighted := 2 })
      rfl (by decide) (by decide) (by decide)).2.1 "down" (by decide),
   (update_navigation_clamps
      ({ (NewModel (go "Mailboxes") sampleItems 40 10).Focus with highlighted := 2 })
      rfl (by decide) (by decide) (by decide)).2.2.1 "g" (by decide),
   (update_navigation_clamps
      ({ (NewModel (go "Mailboxes") sampleItems 40 10).Focus with highlighted := 2 })
      rfl (by decide) (by decide) (by decide)).2.2.2.1 "G" (by decide)⟩

/-! ## Theorems: the visible window -/

/-- C3, evaluated where the window has scrolled. Three items, two content
rows, focused, bottom pressed: `highlighted = 2`, `selected = 0`, and the
window shows items 1 and 2. `View` compares the position inside the window
with the two indices, so the row of item 2, the highlighted one, gets the
regular style, no row gets the highlighted style, and the row of item 1 gets
the selected legend and label style although item 0 is the selected one. -/
theorem view_scrolled_styles_by_window_position :
    (((NewModel (go "") sampleItems 40 2).Focus).Update (Msg.KeyMsg "G")).1.highlighted = 2 ∧
    (((NewModel (go "") sampleItems 40 2).Focus).Update (Msg.KeyMsg "G")).1.selected = 0 ∧
    (((NewModel (go "") sampleItems 40 2).Focus).Update (Msg.KeyMsg "G")).1.View =
      some [
        [DefaultStyles.SelectedLegend.Render (go "┃"), NewStyle.Render (go " "),
          DefaultStyles.SelectedLabel.Render (go "work")],
        [plain (go " "), NewStyle.Render (go " "),
          DefaultStyles.Regular.Render (go "spam"),
          (NewStyle.PaddingRight 32).Render (go " "),
          DefaultStyles.Badge.Render (go "12")]] := by
  decide

/-- C4, evaluated on small viewports, where `View` panics: a titled picker of
height 0, with items (the window is cut as `items[3:1]`) and with an empty
list (the same cut), an untitled one of height -1 (`items[2:1]`), and one of
width 3 (the label "inbox" with badge "3" is cut as `label[:-3]`). -/
theorem view_panics_on_small_viewport :
    (NewModel (go "Mailboxes") sampleItems 0 0).View = none ∧
    (NewModel (go "Mailboxes") [] 0 0).View = none ∧
    (NewModel (go "") sampleItems 40 (-1)).View = none ∧
    (NewModel (go "") sampleItems 3 10).View = none := by
  decide

/-- C5, evaluated at width 20 on two labels of 25 bytes, rows 1 and 2 of
the view. With the badge "3" the label is cut to 14 bytes and the ellipsis,
the badge is whole, and the row is 21 columns wide; without a badge the label
is cut to 15 bytes and the ellipsis and the row is 18 columns wide. Neither is
20. -/
theorem view_trimmed_row_width :
    (NewModel (go "") longItems 20 10).View =
      some [
        [DefaultStyles.SelectedLegend.Render (go "┃"), NewStyle.Render (go " "),
          DefaultStyles.SelectedLabel.Render (go "inbox"),
          (NewStyle.PaddingRight 12).Render (go " "), DefaultStyles.Badge.Render (go "3")],
        [plain (go " "), NewStyle.Render (go " "),
          DefaultStyles.Regular.Render (go "notifications@…"),
          (NewStyle.PaddingRight 2).Render (go " "), DefaultStyles.Badge.Render (go "3")],
        [plain (go " "), NewStyle.Render (go " "),
          DefaultStyles.Regular.Render (go "notifications@e…")]] ∧
    Line.Width [plain (go " "), NewStyle.Render (go " "),
        DefaultStyles.Regular.Render (go "notifications@…"),
        (NewStyle.PaddingRight 2).Render (go " "), DefaultStyles.Badge.Render (go "3")] = 21 ∧
    Line.Width [plain (go " "), NewStyle.Render (go " "),
        DefaultStyles.Regular.Render (go "notifications@e…")] = 18 := by
  decide

end picker

/-! ## Theorems: the root controller -/

namespace tui

variable {H E C : Type}

/-- C10. With a mailbox selected, `Update` on a push notification for mailbox
`x` returns the state unchanged and schedules, in this order: a message-list
query for the selected mailbox if and only if `x` is its id, then one listener
re-arm, then one passive mailbox-list refresh; nothing else. -/
theorem notification_rearms_and_refreshes (S : Screens H E C) (m : Model H E)
    (selected : home.MailboxWithUnread) (x : Int)
    (hsel : m.home.SelectedMailbox = some selected) :
    m.Update S (Msg.mailboxRealTimeUpdate x) =
      some (m, (if x = selected.ID then [Op.refreshMails (some selected)] else []) ++
        [Op.listenToMailboxUpdate m.account, Op.refreshMailboxes m.account true]) := by
  simp only [Model.Update, hsel]
  split_ifs <;> rfl

theorem notification_rearms_and_refreshes_witness :
    sampleModel.Update idleScreens (Msg.mailboxRealTimeUpdate 7) =
      some (sampleModel, (if (7 : Int) = 7 then [Op.refreshMails (some ⟨7, go "inbox", 1, 3⟩)]
        else []) ++ [Op.listenToMailboxUpdate 1, Op.refreshMailboxes 1 true]) :=
  notification_rearms_and_refreshes idleScreens sampleModel ⟨7, go "inbox", 1, 3⟩ 7 rfl

/-- C11, evaluated on every state without a selected mailbox: `Update` on a
push notification reads `m.home.SelectedMailbox.ID` through the nil pointer
and panics, whatever the mailbox id, so nothing is scheduled. -/
theorem notification_without_selected_mailbox_panics (S : Screens H E C) (m : Model H E)
    (x : Int) :
    ({ m with home := { m.home with SelectedMailbox := none } }).Update S
      (Msg.mailboxRealTimeUpdate x) = none :=
  rfl

/-- C12, evaluated on a controller whose selected mailbox 7 has 3 unread
messages, with an unseen message of that mailbox. One message-selected event
leaves the counter at 2. The same message selected, dismissed and selected
again leaves it at 1: each event gives its command a copy of the message with
`Seen = false`, and each command decrements. -/
theorem mark_seen_twice_decrements_twice :
    sampleModel.unread = some 3 ∧
    (sampleModel.deliver idleScreens idleRun quietReplies
      (Msg.MailSelectedMsg unseenMail)).bind Model.unread = some 2 ∧
    (((sampleModel.deliver idleScreens idleRun quietReplies
      (Msg.MailSelectedMsg unseenMail)).bind
        (fun m => m.deliver idleScreens idleRun quietReplies Msg.MailDismissMsg)).bind
        (fun m => m.deliver idleScreens idleRun quietReplies
          (Msg.MailSelectedMsg unseenMail))).bind Model.unread = some 1 := by
  decide

/-- C13. For an unseen message of the selected mailbox, running the
mark-as-seen command leaves the mailbox's unread counter one lower whatever
the store answers: when the update fails the error is printed and the counter
is decremented all the same. The command returns no message. -/
theorem mark_seen_decrements_whatever_the_store_answers
    (runScreen : C → Replies → Option home.MailboxWithUnread → Option Ran) (w : Replies)
    (captured : Option home.MailboxWithUnread) (selected : home.MailboxWithUnread)
    (mail : models.Mail) (hseen : mail.Seen = false) (hbox : mail.MailboxID = selected.ID) :
    (Op.markMailSeen captured mail).run runScreen w (some selected) =
      some ⟨some { selected with Unread := selected.Unread - 1 }, none,
        w.updateErr.toList⟩ := by
  simp only [Op.run, markMailSeenRun, hseen, hbox]
  cases w.updateErr <;> rfl

theorem mark_seen_decrements_whatever_the_store_answers_witness :
    (Op.markMailSeen (some ⟨7, go "inbox", 1, 3⟩) unseenMail).run idleRun failingReplies
        (some ⟨7, go "inbox", 1, 3⟩) =
      some ⟨some { (⟨7, go "inbox", 1, 3⟩ : home.MailboxWithUnread) with
          Unread := (⟨7, go "inbox", 1, 3⟩ : home.MailboxWithUnread).Unread - 1 }, none,
        failingReplies.updateErr.toList⟩ :=
  mark_seen_decrements_whatever_the_store_answers idleRun failingReplies
    (some ⟨7, go "inbox", 1, 3⟩) ⟨7, go "inbox", 1, 3⟩ unseenMail rfl rfl

/-- C14 as stated fails: the mark-as-seen command, run on the selected mailbox
of the sample controller, does not leave that mailbox as it was. -/
theorem mark_seen_command_writes_unread :
    ¬ (((Op.markMailSeen sampleModel.home.SelectedMailbox unseenMail).run idleRun quietReplies
        sampleModel.home.SelectedMailbox).map Ran.cell =
      some sampleModel.home.SelectedMailbox) := by
  decide

/-- C14, amended. A command holds a copy of the controller state, so all it
can change of it is the record of the selected mailbox. Of the commands the
controller makes itself, the mailbox-list refresh, the listener wait,
create-mailbox and quit, and the message-list refresh and delete-mailbox for
a mailbox that is not nil, leave that record as it was and give their result
in the message they return; the message-list refresh and delete-mailbox for a
nil mailbox panic on `mailbox.ID` and return nothing. Mark-as-seen returns no
message and changes the record in the unread counter only: one lower when the
message is unseen and belongs to the selected mailbox, unchanged otherwise. -/
theorem commands_leave_state_except_mark_seen
    (runScreen : C → Replies → Option home.MailboxWithUnread → Option Ran) (w : Replies)
    (cell : Option home.MailboxWithUnread) :
    (∀ account passive, (Op.refreshMailboxes account passive).run runScreen w cell =
      some ⟨cell, some (Msg.MailboxesRefreshedMsg passive w.mailboxes w.mailboxesErr), []⟩) ∧
    (∀ mailbox, (Op.refreshMails (some mailbox)).run runScreen w cell =
      some ⟨cell, some (Msg.MailsRefreshedMsg (some mailbox) w.mails w.mailsErr), []⟩) ∧
    (∀ account, ((Op.listenToMailboxUpdate account).run runScreen w cell).map Ran.cell =
      some cell) ∧
    (∀ account, ((Op.createRandomMailbox account).run runScreen w cell).map Ran.cell =
      some cell) ∧
    (∀ mailbox, ((Op.deleteMailbox (some mailbox)).run runScreen w cell).map Ran.cell =
      some cell) ∧
    (∀ captured mail, (Op.markMailSeen captured mail).run runScreen w cell =
      some ⟨cell.map (fun selected =>
          if mail.Seen = false ∧ mail.MailboxID = selected.ID then
            { selected with Unread := selected.Unread - 1 }
          else selected),
        none, if mail.Seen then [] else w.updateErr.toList⟩) ∧
    Op.Quit.run runScreen w cell = some ⟨cell, some Msg.QuitMsg, []⟩ ∧
    (Op.refreshMails none).run runScreen w cell = none ∧
    (Op.deleteMailbox none).run runScreen w cell = none := by
  refine ⟨fun _ _ => rfl, fun _ => rfl, ?_, ?_, ?_, ?_, rfl, rfl, rfl⟩
  · intro account
    simp only [Op.run, listenToMailboxUpdateRun]
    split_ifs <;> rfl
  · intro account
    simp only [Op.run, createRandomMailboxRun]
    cases w.createErr <;> rfl
  · intro mailbox
    simp only [Op.run, deleteMailboxRun, refreshMailboxesRun]
    split_ifs <;> rfl
  · intro captured mail
    simp only [Op.run, markMailSeenRun]
    cases hseen : mail.Seen
    · cases cell with
      | none => cases w.updateErr <;> simp
      | some selected =>
        by_cases hbox : mail.MailboxID = selected.ID
        · cases w.updateErr <;> simp [hbox]
        · cases w.updateErr <;> simp [hbox]
    · cases cell <;> simp

theorem forward_mode (S : Screens H E C) (m m' : Model H E) (msg : Msg) (cmd : Cmd C)
    (h : m.forward S msg = some (m', cmd)) : m'.mode = m.mode := by
  unfold Model.forward at h
  split at h <;> simp only [Option.some.injEq, Prod.mk.injEq] at h <;>
    obtain ⟨rfl, -⟩ := h <;> rfl

theorem forward_isSome (S : Screens H E C) (m : Model H E) (msg : Msg) :
    m.forward S msg ≠ none := by
  unfold Model.forward
  split <;> simp

/-- C15, with its one failing case. `Update` returns nothing (it panics)
exactly on a push notification while no mailbox is selected, the defect of
C11. Whenever it returns, the mode is the one of the transition table: Message
after a message-selected event, Home after a dismiss event, the previous mode
after every other event; and a message-selected event schedules mark-as-seen
for its message. -/
theorem mode_follows_transition_table (S : Screens H E C) (m : Model H E) (msg : Msg) :
    (m.Update S msg = none ↔
      m.home.SelectedMailbox = none ∧ ∃ x, msg = Msg.mailboxRealTimeUpdate x) ∧
    (∀ m' cmd, m.Update S msg = some (m', cmd) →
      m'.mode = nextMode m.mode msg ∧
      ∀ mail, msg = Msg.MailSelectedMsg mail →
        Op.markMailSeen m.home.SelectedMailbox mail ∈ cmd) := by
  cases msg with
  | mailboxRealTimeUpdate x =>
    cases hsel : m.home.SelectedMailbox with
    | none =>
      refine ⟨⟨fun _ => ⟨rfl, x, rfl⟩, fun _ => ?_⟩, fun m' cmd h => ?_⟩
      · simp only [Model.Update, hsel]
      · simp only [Model.Update, hsel] at h
        exact absurd h (by simp)
    | some selected =>
      refine ⟨⟨fun h => ?_, fun h => absurd h.1 (by simp)⟩, fun m' cmd h => ?_⟩
      · simp only [Model.Update, hsel] at h
        split_ifs at h
      · simp only [Model.Update, hsel] at h
        split_ifs at h <;> simp only [Option.some.injEq, Prod.mk.injEq] at h <;>
          obtain ⟨rfl, -⟩ := h <;> exact ⟨rfl, fun _ hm => by cases hm⟩
  | KeyMsg k =>
    refine ⟨⟨fun h => ?_, fun h => ?_⟩, fun m' cmd h => ?_⟩
    · simp only [Model.Update] at h
      split_ifs at h
      exact absurd h (forward_isSome S m _)
    · obtain ⟨-, x, hx⟩ := h
      cases hx
    · simp only [Model.Update] at h
      split_ifs at h
      · simp only [Option.some.injEq, Prod.mk.injEq] at h
        obtain ⟨rfl, -⟩ := h
        exact ⟨rfl, fun _ hm => by cases hm⟩
      · exact ⟨forward_mode S m m' _ cmd h, fun _ hm => by cases hm⟩
  | MailSelectedMsg mail =>
    refine ⟨⟨fun h => ?_, fun h => ?_⟩, fun m' cmd h => ?_⟩
    · simp [Model.Update] at h
    · obtain ⟨-, x, hx⟩ := h
      cases hx
    · simp only [Model.Update, Option.some.injEq, Prod.mk.injEq] at h
      obtain ⟨rfl, rfl⟩ := h
      refine ⟨rfl, fun mail' hm => ?_⟩
      cases hm
      cases hr : (S.emailUpdate m.email (Msg.MailSelectedMsg mail)).2 <;>
        simp [Batch, Model.markMailSeen, List.reduceOption]
  | MailDismissMsg =>
    refine ⟨⟨fun h => ?_, fun h => ?_⟩, fun m' cmd h => ?_⟩
    · simp [Model.Update] at h
    · obtain ⟨-, x, hx⟩ := h
      cases hx
    · simp only [Model.Update, Option.some.injEq, Prod.mk.injEq] at h
      obtain ⟨rfl, -⟩ := h
      exact ⟨rfl, fun _ hm => by cases hm⟩
  | WindowSizeMsg _ _ | MailboxesRefreshedMsg _ _ _ | MailboxSelectedMsg _
  | CreateRandomMailboxMsg | DeleteMailboxMsg _ =>
    refine ⟨⟨fun h => ?_, fun h => ?_⟩, fun m' cmd h => ?_⟩
    · simp [Model.Update] at h
    · obtain ⟨-, x, hx⟩ := h
      cases hx
    · simp only [Model.Update, Option.some.injEq, Prod.mk.injEq] at h
      obtain ⟨rfl, -⟩ := h
      exact ⟨rfl, fun _ hm => by cases hm⟩
  | SelectedMsg _ | MailsRefreshedMsg _ _ _ | refreshMailboxesCmd _ _ | QuitMsg | other _ =>
    refine ⟨⟨fun h => ?_, fun h => ?_⟩, fun m' cmd h => ?_⟩
    · simp only [Model.Update] at h
      exact absurd h (forward_isSome S m _)
    · obtain ⟨-, x, hx⟩ := h
      cases hx
    · simp only [Model.Update] at h
      exact ⟨forward_mode S m m' _ cmd h, fun _ hm => by cases hm⟩

theorem markMailSeenRun_cell (mail : models.Mail) (w : Replies)
    (cell : Option home.MailboxWithUnread) :
    (markMailSeenRun mail w cell).cell =
      cell.map (fun selected =>
        if mail.Seen = false ∧ mail.MailboxID = selected.ID then
          { selected with Unread := selected.Unread - 1 }
        else selected) := by
  unfold markMailSeenRun
  cases hseen : mail.Seen
  · cases cell with
    | none => simp
    | some selected =>
      by_cases hbox : mail.MailboxID = selected.ID <;> simp [hbox]
  · cases cell <;> simp

/-- C16 as stated fails: on the sample controller, whose selected mailbox has
3 unread messages, entering the Message screen with an unseen message of that
mailbox and dismissing it, the scheduled commands run, does not leave the
selected mailbox of the Home screen as it was. -/
theorem enter_and_dismiss_changes_selected_mailbox :
    ¬ (((sampleModel.deliver idleScreens idleRun quietReplies
        (Msg.MailSelectedMsg unseenMail)).bind
          (fun entered => entered.deliver idleScreens idleRun quietReplies
            Msg.MailDismissMsg)).map (fun m => m.home.SelectedMailbox) =
      some sampleModel.home.SelectedMailbox) := by
  decide

/-- C16, amended. On a dismiss event `Update` returns the state with
`mode = Home`, every other field unchanged, and no command. Entering the
Message screen by a message-selected event and dismissing it, with the
commands scheduled on the way run (those of the screens leaving the selected
mailbox alone), gives back the controller in Home mode with the Home screen
state as before in all but one place: the mark-as-seen command scheduled on
entering has lowered the unread counter of the selected mailbox by one when
the message was unseen and belongs to that mailbox. -/
theorem dismiss_returns_home_with_unread_lowered (S : Screens H E C)
    (runScreen : C → Replies → Option home.MailboxWithUnread → Option Ran) (w : Replies)
    (m : Model H E) (mail : models.Mail)
    (hscreen : ∀ c w cell, (runScreen c w cell).map Ran.cell = some cell) :
    m.Update S Msg.MailDismissMsg = some ({ m with mode := mode.Home }, []) ∧
    (m.deliver S runScreen w (Msg.MailSelectedMsg mail)).bind
        (fun entered => entered.deliver S runScreen w Msg.MailDismissMsg) =
      some { m with
        mode := mode.Home
        email := (S.emailUpdate m.email (Msg.MailSelectedMsg mail)).1
        home := { m.home with
          SelectedMailbox := m.home.SelectedMailbox.map (fun selected =>
            if mail.Seen = false ∧ mail.MailboxID = selected.ID then
              { selected with Unread := selected.Unread - 1 }
            else selected) } } := by
  refine ⟨rfl, ?_⟩
  have hmark : ∀ cell, ((Op.markMailSeen m.home.SelectedMailbox mail : Op C).run runScreen w
      cell).map Ran.cell = some (cell.map (fun selected =>
        if mail.Seen = false ∧ mail.MailboxID = selected.ID then
          { selected with Unread := selected.Unread - 1 }
        else selected)) := by
    intro cell
    simp only [Op.run, Option.map_some', markMailSeenRun_cell]
  have hentered : m.deliver S runScreen w (Msg.MailSelectedMsg mail) =
      some { m with
        mode := mode.Email
        email := (S.emailUpdate m.email (Msg.MailSelectedMsg mail)).1
        home := { m.home with
          SelectedMailbox := m.home.SelectedMailbox.map (fun selected =>
            if mail.Seen = false ∧ mail.MailboxID = selected.ID then
              { selected with Unread := selected.Unread - 1 }
            else selected) } } := by
    simp only [Model.deliver, Model.Update, Model.markMailSeen, Option.bind_eq_bind,
      Option.some_bind, Option.pure_def]
    cases hcmd : (S.emailUpdate m.email (Msg.MailSelectedMsg mail)).2 with
    | none =>
      simp only [Batch, Option.map_none', List.reduceOption_cons_of_none,
        List.reduceOption_cons_of_some, List.reduceOption_nil, List.foldlM_cons,
        List.foldlM_nil, hmark, Option.bind_eq_bind, Option.some_bind, Option.pure_def]
    | some c =>
      have hc := hscreen c w m.home.SelectedMailbox
      simp only [Batch, Option.map_some', List.reduceOption_cons_of_some,
        List.reduceOption_nil, List.foldlM_cons, List.foldlM_nil, Op.run, hc, hmark,
        Option.bind_eq_bind, Option.some_bind, Option.pure_def, markMailSeenRun_cell]
  rw [hentered]
  rfl

theorem dismiss_returns_home_with_unread_lowered_witness :
    (∀ (c : String) (w : Replies) (cell : Option home.MailboxWithUnread),
      (countingRun c w cell).map Ran.cell = some cell) ∧
    (countingModel.Update countingScreens (Msg.MailSelectedMsg unseenMail)).map Prod.snd =
      some [Op.screen "email", Op.markMailSeen (some ⟨7, go "inbox", 1, 3⟩) unseenMail] ∧
    countingModel.Update countingScreens Msg.MailDismissMsg =
      some ({ countingModel with mode := mode.Home }, []) ∧
    (countingModel.deliver countingScreens countingRun quietReplies
        (Msg.MailSelectedMsg unseenMail)).bind
        (fun entered => entered.deliver countingScreens countingRun quietReplies
          Msg.MailDismissMsg) =
      some { countingModel with
        mode := mode.Home
        email := { countingModel.email with rest := 1 }
        home := { countingModel.home with SelectedMailbox := some ⟨7, go "inbox", 1, 2⟩ } } :=
  ⟨fun _ _ _ => rfl, rfl,
   dismiss_returns_home_with_unread_lowered countingScreens countingRun quietReplies
    countingModel unseenMail (fun _ _ _ => rfl)⟩

/-- C17. An event the controller does not handle itself (anything but
resize, the quit key, a push notification, a mailbox-list refresh result, the
select, create and delete mailbox intents, message-selected and dismiss) goes
to the active screen only: in Home mode the new Home state is the one the
Home screen's `Update` returns, the command is the one it returns (none when
it returns nil) and nothing else changes; in Message mode the same holds for
the Message screen. -/
theorem unrecognised_event_goes_to_active_screen (S : Screens H E C) (m : Model H E)
    (msg : Msg) (hmsg : recognised m.KeyMap msg = false) :
    (m.mode = mode.Home →
      m.Update S msg =
        some ({ m with home := (S.homeUpdate m.home msg).1 },
          match (S.homeUpdate m.home msg).2 with
          | some c => [Op.screen c]
          | none => [])) ∧
    (m.mode = mode.Email →
      m.Update S msg =
        some ({ m with email := (S.emailUpdate m.email msg).1 },
          match (S.emailUpdate m.email msg).2 with
          | some c => [Op.screen c]
          | none => [])) := by
  have hfwd : m.Update S msg = m.forward S msg := by
    cases msg <;> simp only [recognised, Bool.true_eq_false] at hmsg <;>
      simp only [Model.Update, hmsg, Bool.false_eq_true, if_false]
  rw [hfwd]
  constructor <;> intro hmode <;> simp only [Model.forward, hmode]
  · cases (S.homeUpdate m.home msg).2 <;> rfl
  · cases (S.emailUpdate m.email msg).2 <;> rfl

theorem unrecognised_event_goes_to_active_screen_witness :
    recognised countingModel.KeyMap (Msg.KeyMsg "j") = false ∧
    countingModel.Update countingScreens (Msg.KeyMsg "j") =
      some ({ countingModel with home := { countingModel.home with rest := 1 } },
        [Op.screen "home"]) ∧
    ({ countingModel with mode := mode.Email } : Model Nat Nat).Update countingScreens
        (Msg.KeyMsg "j") =
      some ({ countingModel with
          mode := mode.Email, email := { countingModel.email with rest := 1 } },
        [Op.screen "email"]) :=
  ⟨by decide,
   (unrecognised_event_goes_to_active_screen countingScreens countingModel (Msg.KeyMsg "j")
      (by decide)).1 rfl,
   (unrecognised_event_goes_to_active_screen countingScreens
      ({ countingModel with mode := mode.Email }) (Msg.KeyMsg "j") (by decide)).2 rfl⟩

/-- C18. A key that matches the quit binding (`q` and `ctrl+c` under the
default key map) is handled by the controller itself, in either mode: the
state returned differs from the old one in `quitting = true` only, so neither
screen has changed, the command is `tea.Quit`, and `View` of the state
returned is the empty string. -/
theorem quit_key_ends_session (S : Screens H E C) (V : Views H E) (m : Model H E)
    (k : String) (hk : key.Matches k m.KeyMap.Quit = true) :
    m.Update S (Msg.KeyMsg k) = some ({ m with quitting := true }, [Op.Quit]) ∧
    ({ m with quitting := true } : Model H E).View V = [] := by
  constructor
  · simp only [Model.Update, hk, if_true]
  · simp only [Model.View, if_true]

theorem quit_key_ends_session_witness :
    key.Matches "q" DefaultKeyMap.Quit = true ∧
    key.Matches "ctrl+c" DefaultKeyMap.Quit = true ∧
    sampleModel.Update idleScreens (Msg.KeyMsg "ctrl+c") =
      some ({ sampleModel with quitting := true }, [Op.Quit]) ∧
    ({ sampleModel with quitting := true } : Model Unit Unit).View idleViews = [] :=
  ⟨by decide, by decide,
   quit_key_ends_session idleScreens idleViews sampleModel "ctrl+c" (by decide)⟩

end tui

/-! ## Theorems: the rows of the picker -/

namespace picker

open lipgloss

theorem trimLabel_of_fits (m : Model) (item : Item) (hfit : m.Fits item) :
    m.trimLabel item = some (m.labelBySpec item) := by
  unfold Model.trimLabel Model.labelBySpec goSlice
  by_cases hover : (item.Label.length : Int) + (item.Badge.length : Int) + 2 > m.Width
  · have hroom : (item.Badge.length : Int) + 5 ≤ m.Width := by
      rcases hfit with h | h
      · omega
      · exact h
    have e : ((item.Label.length : Int) -
        ((item.Label.length : Int) + (item.Badge.length : Int) + 2 - m.Width + 3)).toNat -
        (0 : Int).toNat = (m.Width - (item.Badge.length : Int) - 5).toNat := by omega
    simp only [hover, if_true]
    rw [if_pos (by omega), e]
    simp
  · simp only [hover, if_false]

theorem renderRow_of_trim (m : Model) (index : Int) (item : Item) (label : GoString)
    (h : m.trimLabel item = some label) :
    ∃ row, m.renderRow index item = some row ∧
      labelOf row = some ((m.labelStyleByPrecedence index).Render label) ∧
      (item.Badge ≠ [] → badgeOf row = some (m.Styles.Badge.Render item.Badge)) := by
  simp only [Model.renderRow, h, Option.bind_eq_bind, Option.some_bind, Option.pure_def,
    Model.labelStyleByPrecedence, Model.IsFocused]
  by_cases hb : item.Badge.length ≠ 0
  · rw [if_pos hb]
    refine ⟨_, rfl, ?_, fun _ => rfl⟩
    simp only [labelOf]
    split_ifs <;> simp_all
  · rw [if_neg hb]
    refine ⟨_, rfl, ?_, fun hne => ?_⟩
    · simp only [labelOf]
      split_ifs <;> simp_all
    · exact absurd (by simpa using hne) hb

theorem renderRow_none_of_trim (m : Model) (index : Int) (item : Item)
    (h : m.trimLabel item = none) : m.renderRow index item = none := by
  simp only [Model.renderRow, h, Option.bind_eq_bind, Option.none_bind]

theorem renderRows_getElem (m : Model) :
    ∀ (w : List Item) (start : Int) (rows : List Line), m.renderRows start w = some rows →
      ∀ (i : Nat) (item : Item), w[i]? = some item →
        ∃ row, rows[i]? = some row ∧ m.renderRow (start + (i : Int)) item = some row := by
  intro w
  induction w with
  | nil =>
    intro start rows _ i item hi
    simp at hi
  | cons first rest ih =>
    intro start rows hrows i item hi
    simp only [Model.renderRows, Option.bind_eq_bind, Option.pure_def] at hrows
    cases hfirst : m.renderRow start first with
    | none => simp [hfirst] at hrows
    | some line =>
      cases hrest : m.renderRows (start + 1) rest with
      | none => simp [hfirst, hrest] at hrows
      | some lines =>
        simp only [hfirst, hrest, Option.some_bind, Option.some.injEq] at hrows
        subst hrows
        cases i with
        | zero =>
          simp only [List.getElem?_cons_zero, Option.some.injEq] at hi
          subst hi
          exact ⟨line, by simp, by simpa using hfirst⟩
        | succ j =>
          simp only [List.getElem?_cons_succ] at hi
          obtain ⟨row, hrow, hrender⟩ := ih (start + 1) lines hrest j item hi
          refine ⟨row, by simpa using hrow, ?_⟩
          have e : start + ((j + 1 : Nat) : Int) = start + 1 + (j : Int) := by
            push_cast; ring
          rw [e]
          exact hrender

theorem renderRows_of_trim (m : Model) :
    ∀ (w : List Item) (start : Int), (∀ item ∈ w, ∃ label, m.trimLabel item = some label) →
      ∃ rows, m.renderRows start w = some rows := by
  intro w
  induction w with
  | nil => intro start _; exact ⟨[], rfl⟩
  | cons first rest ih =>
    intro start hall
    obtain ⟨label, hlabel⟩ := hall first (List.mem_cons_self _ _)
    obtain ⟨row, hrow, -⟩ := renderRow_of_trim m start first label hlabel
    obtain ⟨rows, hrows⟩ := ih (start + 1) (fun item hmem => hall item (List.mem_cons_of_mem _ hmem))
    exact ⟨row :: rows, by
      simp only [Model.renderRows, hrow, hrows, Option.bind_eq_bind, Option.some_bind,
        Option.pure_def]⟩

theorem view_of_visible (m : Model) (w : List Item)
    (hw : m.visibleItems m.contentHeight = some w) :
    m.View = (m.renderRows 0 w).map (fun rows => m.titleLines ++ rows) := by
  simp only [Model.View, hw, Option.bind_eq_bind, Option.some_bind, Option.pure_def,
    Model.titleLines]
  cases m.renderRows 0 w <;> rfl

/-- C19. Let an item be visible at position `i` and fit the width: its row
does not overflow, or `Width >= len(badge) + 5`. Then the loop of `View`
renders a row for it, which is line `i` after the title in whatever `View`
returns. The label of the row is the first `Width - len(badge) - 5` bytes of
the item's label followed by the ellipsis when
`len(label) + len(badge) + 2 > Width`, and the label unmodified otherwise;
the badge of the row, when the item has one, is the item's badge unchanged.
And `View` does return when every visible item fits. -/
theorem view_trims_label_from_the_end (m : Model) (w : List Item)
    (hw : m.visibleItems m.contentHeight = some w) :
    ((∀ item ∈ w, m.Fits item) → ∃ lines, m.View = some lines) ∧
    ∀ (i : Nat) (item : Item), w[i]? = some item → m.Fits item →
      ∃ row, m.renderRow (i : Int) item = some row ∧
        (∀ lines, m.View = some lines → lines[m.titleLines.length + i]? = some row) ∧
        ((item.Label.length : Int) + (item.Badge.length : Int) + 2 > m.Width →
          (labelOf row).map Rendered.text =
            some (item.Label.take (m.Width - (item.Badge.length : Int) - 5).toNat ++
              ellipsis)) ∧
        ((item.Label.length : Int) + (item.Badge.length : Int) + 2 ≤ m.Width →
          (labelOf row).map Rendered.text = some item.Label) ∧
        (item.Badge ≠ [] → (badgeOf row).map Rendered.text = some item.Badge) := by
  constructor
  · intro hfit
    obtain ⟨rows, hrows⟩ := renderRows_of_trim m w 0
      (fun item hmem => ⟨_, trimLabel_of_fits m item (hfit item hmem)⟩)
    exact ⟨m.titleLines ++ rows, by rw [view_of_visible m w hw, hrows]; rfl⟩
  · intro i item hi hfit
    obtain ⟨row, hrender, hlabel, hbadge⟩ :=
      renderRow_of_trim m (i : Int) item _ (trimLabel_of_fits m item hfit)
    refine ⟨row, hrender, ?_, ?_, ?_, ?_⟩
    · intro lines hview
      rw [view_of_visible m w hw] at hview
      cases hrows : m.renderRows 0 w with
      | none => simp [hrows] at hview
      | some rows =>
        simp only [hrows, Option.map_some', Option.some.injEq] at hview
        subst hview
        obtain ⟨row', hrow', hrender'⟩ := renderRows_getElem m w 0 rows hrows i item hi
        rw [zero_add, hrender] at hrender'
        rw [List.getElem?_append_right (by omega)]
        simpa [Option.some.inj hrender'] using hrow'
    · intro hover
      rw [hlabel]
      simp only [Option.map_some', Style.Render, Model.labelBySpec, hover, if_true]
    · intro hwhole
      rw [hlabel]
      have hnot : ¬ ((item.Label.length : Int) + (item.Badge.length : Int) + 2 > m.Width) := by
        omega
      simp only [Option.map_some', Style.Render, Model.labelBySpec, hnot, if_false]
    · intro hne
      rw [hbadge hne]
      rfl

theorem view_trims_label_from_the_end_witness :
    (NewModel (go "") longItems 20 10).visibleItems
        (NewModel (go "") longItems 20 10).contentHeight = some longItems ∧
    longItems[1]? = some ⟨go "notifications@example.com", 2, go "3"⟩ ∧
    (NewModel (go "") longItems 20 10).Fits ⟨go "notifications@example.com", 2, go "3"⟩ ∧
    ∃ row, (NewModel (go "") longItems 20 10).renderRow ((1 : Nat) : Int)
          ⟨go "notifications@example.com", 2, go "3"⟩ = some row ∧
        (∀ lines, (NewModel (go "") longItems 20 10).View = some lines →
          lines[(NewModel (go "") longItems 20 10).titleLines.length + 1]? = some row) ∧
        (((go "notifications@example.com").length : Int) + ((go "3").length : Int) + 2 > 20 →
          (labelOf row).map Rendered.text =
            some ((go "notifications@example.com").take
              ((20 : Int) - ((go "3").length : Int) - 5).toNat ++ ellipsis)) ∧
        (((go "notifications@example.com").length : Int) + ((go "3").length : Int) + 2 ≤ 20 →
          (labelOf row).map Rendered.text = some (go "notifications@example.com")) ∧
        (go "3" ≠ [] → (badgeOf row).map Rendered.text = some (go "3")) :=
  ⟨by decide, by decide, by decide,
   (view_trims_label_from_the_end (NewModel (go "") longItems 20 10) longItems
      (by decide)).2 1 ⟨go "notifications@example.com", 2, go "3"⟩ (by decide) (by decide)⟩

theorem rows_styled_by_window_position (m : Model) (w : List Item) (lines : List Line)
    (hw : m.visibleItems m.contentHeight = some w) (hview : m.View = some lines) :
    ∀ (i : Nat) (item : Item), w[i]? = some item →
      ∃ row label, lines[m.titleLines.length + i]? = some row ∧
        m.trimLabel item = some label ∧
        (((i : Int) = m.highlighted ∧ m.focused = true →
          labelOf row = some (m.Styles.Highlighted.Render label)) ∧
        (¬ ((i : Int) = m.highlighted ∧ m.focused = true) → (i : Int) = m.selected →
          labelOf row = some (m.Styles.SelectedLabel.Render label)) ∧
        (¬ ((i : Int) = m.highlighted ∧ m.focused = true) → (i : Int) ≠ m.selected →
          labelOf row = some (m.Styles.Regular.Render label))) := by
  rw [view_of_visible m w hw] at hview
  cases hrows : m.renderRows 0 w with
  | none => simp [hrows] at hview
  | some rows =>
    simp only [hrows, Option.map_some', Option.some.injEq] at hview
    subst hview
    intro i item hi
    obtain ⟨row, hrow, hrender⟩ := renderRows_getElem m w 0 rows hrows i item hi
    rw [zero_add] at hrender
    cases htrim : m.trimLabel item with
    | none =>
      rw [renderRow_none_of_trim m _ item htrim] at hrender
      exact absurd hrender (by simp)
    | some label =>
      obtain ⟨row', hrender', hlabel, -⟩ := renderRow_of_trim m (i : Int) item label htrim
      have hsame : row' = row := by
        rw [hrender] at hrender'
        exact (Option.some.inj hrender').symm
      subst hsame
      refine ⟨row', label, ?_, rfl, ?_, ?_, ?_⟩
      · rw [List.getElem?_append_right (by omega)]
        simpa using hrow
      · intro hhigh
        rw [hlabel, Model.labelStyleByPrecedence, if_pos hhigh]
      · intro hnot hsel
        rw [hlabel, Model.labelStyleByPrecedence, if_neg hnot, if_pos hsel]
      · intro hnot hsel
        rw [hlabel, Model.labelStyleByPrecedence, if_neg hnot, if_neg hsel]

theorem renderRows_length (m : Model) :
    ∀ (w : List Item) (start : Int) (rows : List Line), m.renderRows start w = some rows →
      rows.length = w.length := by
  intro w
  induction w with
  | nil =>
    intro start rows hrows
    simp only [Model.renderRows, Option.some.injEq] at hrows
    subst hrows
    rfl
  | cons first rest ih =>
    intro start rows hrows
    simp only [Model.renderRows, Option.bind_eq_bind, Option.pure_def] at hrows
    cases hfirst : m.renderRow start first with
    | none => simp [hfirst] at hrows
    | some line =>
      cases hrest : m.renderRows (start + 1) rest with
      | none => simp [hfirst, hrest] at hrows
      | some lines =>
        simp only [hfirst, hrest, Option.some_bind, Option.some.injEq] at hrows
        subst hrows
        simp only [List.length_cons, ih (start + 1) lines hrest]

theorem contentHeight_eq (m : Model) :
    m.contentHeight =
      m.Height - (if m.title ≠ [] then (m.Styles.Title.Render m.title).Height else 0) := by
  unfold Model.contentHeight
  split_ifs <;> simp

theorem visibleItems_window (m : Model) (h c : Nat) (hh : m.highlighted = (h : Int))
    (hc : m.contentHeight = (c : Int)) (hlt : h < m.items.length) (hc1 : 1 ≤ c) :
    ∃ w, m.visibleItems m.contentHeight = some w ∧
      (c ≤ h → w = (m.items.drop (h - c + 1)).take c ∧ w.length = c ∧
        w[c - 1]? = m.items[h]?) ∧
      (h < c → w = m.items.take (min m.items.length c) ∧ w[h]? = m.items[h]?) ∧
      w.length ≤ c ∧ ∃ x, m.items[h]? = some x ∧ x ∈ w := by
  have hx : m.items[h]? = some (m.items.get ⟨h, hlt⟩) := List.getElem?_eq_getElem hlt
  by_cases hch : c ≤ h
  · have hw : m.visibleItems m.contentHeight = some ((m.items.drop (h - c + 1)).take c) := by
      have e1 : ((h : Int) - (c : Int) + 1).toNat = h - c + 1 := by omega
      have e2 : ((h : Int) + 1).toNat - ((h : Int) - (c : Int) + 1).toNat = c := by omega
      simp only [Model.visibleItems, goSlice, hh, hc]
      rw [if_pos (by omega), if_pos (by omega), e2, e1]
    have hlen : ((m.items.drop (h - c + 1)).take c).length = c := by
      rw [List.length_take, List.length_drop]; omega
    have hlast : ((m.items.drop (h - c + 1)).take c)[c - 1]? = m.items[h]? := by
      rw [List.getElem?_take_of_lt (by omega), List.getElem?_drop]
      congr 1; omega
    exact ⟨_, hw, fun _ => ⟨rfl, hlen, hlast⟩, fun hlt2 => absurd hch (by omega),
      by omega, m.items.get ⟨h, hlt⟩, hx, List.getElem?_mem (hlast.trans hx)⟩
  · have hw : m.visibleItems m.contentHeight = some (m.items.take (min m.items.length c)) := by
      simp only [Model.visibleItems, goSlice, hh, hc]
      rw [if_neg (by omega)]
      by_cases hlong : (m.items.length : Int) > (c : Int)
      · have e1 : ((c : Int)).toNat - (0 : Int).toNat = c := by omega
        rw [if_pos hlong, if_pos (by omega), e1]
        have e2 : min m.items.length c = c := by omega
        rw [e2, Int.toNat_zero, List.drop_zero]
      · rw [if_neg hlong]
        have e2 : min m.items.length c = m.items.length := by omega
        rw [e2, List.take_length]
    have hat : (m.items.take (min m.items.length c))[h]? = m.items[h]? := by
      rw [List.getElem?_take_of_lt (by omega)]
    refine ⟨_, hw, fun h2 => absurd h2 hch, fun _ => ⟨rfl, hat⟩, ?_,
      m.items.get ⟨h, hlt⟩, hx, List.getElem?_mem (hat.trans hx)⟩
    rw [List.length_take]; omega

/-- C2. Let `0 <= highlighted = h < len(items)` and let `c >= 1` be `Height`
minus the rows of the rendered title (none when the title is empty). `View`
cuts a slice `w` of the items: when `h >= c` it is `items[h - c + 1 .. h + 1)`,
which has exactly `c` rows and whose last row is `items[h]`; otherwise it is
the first `min(len(items), c)` items, with `items[h]` at row `h`. Either way
`w` has at most `c` rows and contains `items[h]`. What `View` returns is the
title lines followed by one row for each item of `w`, in order, the row of an
item showing its (trimmed) label; and `View` does return when every item of
`w` fits the width. -/
theorem view_window_keeps_highlighted (m : Model) (h c : Nat)
    (hh : m.highlighted = (h : Int))
    (hc : m.Height - (if m.title ≠ [] then (m.Styles.Title.Render m.title).Height else 0) =
      (c : Int))
    (hlt : h < m.items.length) (hc1 : 1 ≤ c) :
    ∃ w, m.visibleItems m.contentHeight = some w ∧
      m.View = (m.renderRows 0 w).map (fun rows =>
        (if m.title ≠ [] then [[m.Styles.Title.Render m.title]] else []) ++ rows) ∧
      (c ≤ h → w = (m.items.drop (h - c + 1)).take c ∧ w.length = c ∧
        w[c - 1]? = m.items[h]?) ∧
      (h < c → w = m.items.take (min m.items.length c) ∧ w[h]? = m.items[h]?) ∧
      w.length ≤ c ∧ (∃ x, m.items[h]? = some x ∧ x ∈ w) ∧
      ((∀ item ∈ w, m.Fits item) → ∃ lines, m.View = some lines) ∧
      (∀ lines, m.View = some lines →
        ∃ rows, lines = m.titleLines ++ rows ∧ rows.length = w.length ∧
          ∀ (i : Nat) (item : Item), w[i]? = some item →
            ∃ row, rows[i]? = some row ∧ m.renderRow (i : Int) item = some row ∧
              (labelOf row).map Rendered.text = m.trimLabel item) := by
  have hc' : m.contentHeight = (c : Int) := by rw [contentHeight_eq, hc]
  obtain ⟨w, hw, hscrolled, hfirst, hlen, hmem⟩ := visibleItems_window m h c hh hc' hlt hc1
  have hview := view_of_visible m w hw
  refine ⟨w, hw, ?_, hscrolled, hfirst, hlen, hmem, ?_, ?_⟩
  · rw [hview]
    rfl
  · intro hfit
    obtain ⟨rows, hrows⟩ := renderRows_of_trim m w 0
      (fun item hitem => ⟨_, trimLabel_of_fits m item (hfit item hitem)⟩)
    exact ⟨m.titleLines ++ rows, by rw [hview, hrows]; rfl⟩
  · intro lines hlines
    rw [hview] at hlines
    cases hrows : m.renderRows 0 w with
    | none => simp [hrows] at hlines
    | some rows =>
      simp only [hrows, Option.map_some', Option.some.injEq] at hlines
      refine ⟨rows, hlines.symm, renderRows_length m w 0 rows hrows, ?_⟩
      intro i item hi
      obtain ⟨row, hrow, hrender⟩ := renderRows_getElem m w 0 rows hrows i item hi
      rw [zero_add] at hrender
      refine ⟨row, hrow, hrender, ?_⟩
      cases htrim : m.trimLabel item with
      | none =>
        rw [renderRow_none_of_trim m _ item htrim] at hrender
        exact absurd hrender (by simp)
      | some label =>
        obtain ⟨row', hrender', hlabel, -⟩ := renderRow_of_trim m (i : Int) item label htrim
        rw [hrender] at hrender'
        rw [Option.some.inj hrender', hlabel]
        rfl

theorem view_window_keeps_highlighted_witness :
    scrolledTitled.Height = 4 ∧ scrolledTitled.contentHeight = 2 ∧
    scrolledTitled.View =
      some [
        [DefaultStyles.Title.Render (go "Mailboxes")],
        [DefaultStyles.SelectedLegend.Render (go "┃"), NewStyle.Render (go " "),
          DefaultStyles.SelectedLabel.Render (go "work")],
        [plain (go " "), NewStyle.Render (go " "),
          DefaultStyles.Regular.Render (go "spam"),
          (NewStyle.PaddingRight 32).Render (go " "),
          DefaultStyles.Badge.Render (go "12")]] ∧
    ∃ w, scrolledTitled.visibleItems scrolledTitled.contentHeight = some w ∧
      scrolledTitled.View = (scrolledTitled.renderRows 0 w).map (fun rows =>
        (if scrolledTitled.title ≠ [] then [[scrolledTitled.Styles.Title.Render scrolledTitled.title]] else []) ++ rows) ∧
      (2 ≤ 2 → w = (scrolledTitled.items.drop (2 - 2 + 1)).take 2 ∧ w.length = 2 ∧
        w[2 - 1]? = scrolledTitled.items[2]?) ∧
      (2 < 2 → w = scrolledTitled.items.take (min scrolledTitled.items.length 2) ∧ w[2]? = scrolledTitled.items[2]?) ∧
      w.length ≤ 2 ∧ (∃ x, scrolledTitled.items[2]? = some x ∧ x ∈ w) ∧
      ((∀ item ∈ w, scrolledTitled.Fits item) → ∃ lines, scrolledTitled.View = some lines) ∧
      (∀ lines, scrolledTitled.View = some lines →
        ∃ rows, lines = scrolledTitled.titleLines ++ rows ∧ rows.length = w.length ∧
          ∀ (i : Nat) (item : Item), w[i]? = some item →
            ∃ row, rows[i]? = some row ∧ scrolledTitled.renderRow (i : Int) item = some row ∧
              (labelOf row).map Rendered.text = scrolledTitled.trimLabel item) :=
  ⟨by decide, by decide, by decide,
   view_window_keeps_highlighted scrolledTitled 2 2 rfl (by decide) (by decide) (by decide)⟩

theorem visibleItems_unscrolled (m : Model) (w : List Item)
    (hfold : m.highlighted ≤ m.contentHeight - 1)
    (hw : m.visibleItems m.contentHeight = some w) :
    ∀ (i : Nat) (item : Item), w[i]? = some item → m.items[i]? = some item := by
  intro i item hi
  simp only [Model.visibleItems, goSlice] at hw
  rw [if_neg (by omega)] at hw
  split_ifs at hw
  · simp only [Option.some.injEq] at hw
    subst hw
    rw [Int.toNat_zero, List.drop_zero, List.getElem?_take] at hi
    split_ifs at hi
    exact hi
  · simp only [Option.some.injEq] at hw
    subst hw
    exact hi

/-- C20, with its failing case. Three items, one content row, focused, down
pressed once: `highlighted = 1`, `selected = 0`, and the one row shows item 1,
the highlighted item. Its label gets the selected style (and the selected
legend), not the highlighted style, because `View` compares the position in
the window, 0, with the two indices: the defect of C3. As long as the window
has not scrolled (`highlighted <= contentHeight - 1`) the row at position `i`
shows `items[i]` and its label style is the one the precedence gives:
highlighted when `i = highlighted` and the picker is focused, otherwise
selected when `i = selected`, otherwise plain. -/
theorem label_style_follows_precedence_until_scrolled :
    ((((NewModel (go "") sampleItems 40 1).Focus).Update (Msg.KeyMsg "j")).1.highlighted = 1 ∧
      (((NewModel (go "") sampleItems 40 1).Focus).Update (Msg.KeyMsg "j")).1.selected = 0 ∧
      (((NewModel (go "") sampleItems 40 1).Focus).Update (Msg.KeyMsg "j")).1.focused = true ∧
      (((NewModel (go "") sampleItems 40 1).Focus).Update (Msg.KeyMsg "j")).1.View =
        some [[DefaultStyles.SelectedLegend.Render (go "┃"), NewStyle.Render (go " "),
          DefaultStyles.SelectedLabel.Render (go "work")]]) ∧
    ∀ (m : Model) (w : List Item) (lines : List Line),
      m.highlighted ≤ m.contentHeight - 1 → m.visibleItems m.contentHeight = some w →
      m.View = some lines →
      ∀ (i : Nat) (item : Item), w[i]? = some item →
        m.items[i]? = some item ∧
        ∃ row label, lines[m.titleLines.length + i]? = some row ∧
          m.trimLabel item = some label ∧
          (((i : Int) = m.highlighted ∧ m.focused = true →
            labelOf row = some (m.Styles.Highlighted.Render label)) ∧
          (¬ ((i : Int) = m.highlighted ∧ m.focused = true) → (i : Int) = m.selected →
            labelOf row = some (m.Styles.SelectedLabel.Render label)) ∧
          (¬ ((i : Int) = m.highlighted ∧ m.focused = true) → (i : Int) ≠ m.selected →
            labelOf row = some (m.Styles.Regular.Render label))) := by
  refine ⟨by decide, ?_⟩
  intro m w lines hfold hw hview i item hi
  exact ⟨visibleItems_unscrolled m w hfold hw i item hi,
    rows_styled_by_window_position m w lines hw hview i item hi⟩

end picker
